import Mathlib

/-!
# mqforward: the InfluxDB forwarding client (`influxdb.go`)

A shallow embedding of `NewInfluxDBClient`, `InfluxDBClient.Send` and the
event loop of `InfluxDBClient.Start`, together with the capped deque of
`github.com/oleiade/lane` that the client uses as its buffer.

The encoder (`MqttSeriesEncoder.Encode`) and the database client
(`influxdb.Client.Write`) are collaborators of the code in `influxdb.go`; they
are taken as parameters, threaded through an explicit world state so that
neither has to be pure or deterministic over time.
-/

namespace MqForward

/-! ## Data model -/

/-- Modelled from the spec: the type `Message` is declared outside `influxdb.go`;
the spec gives it as `{topic: string, payload: bytes}` and `Send` reads exactly
the fields `Topic` and `Payload`. Bytes are kept as numbers. -/
structure Message where
  Topic : String
  Payload : List Nat
  deriving DecidableEq, Repr

/-- The zero value of `Message`, which fills `make([]Message, MaxBufferSize)`. -/
def Message.zero : Message := { Topic := "", Payload := [] }

/-- The test `m.Topic == "" && len(m.Payload) == 0` of `Send`. -/
def Message.isZero (m : Message) : Bool :=
  m.Topic == "" && m.Payload.length == 0

/-- A value of type `interface{}` as held by the deque: a `Message`, a value of
some other dynamic type, or the nil interface. -/
inductive Item where
  | message (m : Message)
  | other (tag : Nat)
  | nilValue
  deriving DecidableEq, Repr

/-- The capped deque `lane.Deque` of the imported package
`github.com/oleiade/lane`: a list container and a capacity, a negative capacity
meaning "unbounded". The package is a dependency of the repository; this
definition and the operations below follow its `deque.go`. -/
structure Deque where
  container : List Item
  capacity : Int
  deriving DecidableEq, Repr

/-- The constructor `lane.NewCappedDeque(capacity)`: an empty deque with the
given capacity. -/
def NewCappedDeque (capacity : Int) : Deque :=
  { container := [], capacity := capacity }

/-- The method `Deque.Size`: the number of items held. -/
def Deque.Size (s : Deque) : Nat := s.container.length

/-- The method `Deque.Append` of `lane`:
`if s.capacity < 0 || s.container.Len() < s.capacity { PushBack(item); return true }`
and `return false` otherwise. The item is pushed at the back when the deque is
unbounded or below capacity; at capacity nothing is inserted. -/
def Deque.Append (s : Deque) (item : Item) : Deque × Bool :=
  if s.capacity < 0 ∨ (s.container.length : Int) < s.capacity then
    ({ s with container := s.container ++ [item] }, true)
  else
    (s, false)

/-- The method `Deque.Shift` of `lane`: removes and returns the first item, or
returns nil (and leaves the deque as it is) when the deque is empty. -/
def Deque.Shift (s : Deque) : Deque × Item :=
  match s.container with
  | [] => (s, Item.nilValue)
  | x :: rest => ({ s with container := rest }, x)

/-- Modelled from the spec: the string constants `StatusStopped` and
`StatusStarted`, the two values `influxdb.go` gives to `InfluxDBClient.Status`,
are declared outside `influxdb.go`; the spec gives the client state as the
enumeration `{Stopped, Started}`. -/
inductive Status where
  | Stopped
  | Started
  deriving DecidableEq, Repr

/-- The constant `DefaultTick`. -/
def DefaultTick : Int := 1

/-- The configuration struct `InfluxDBConf`. -/
structure InfluxDBConf where
  Hostname : String
  Port : Int
  Url : String
  Db : String
  UserName : String
  Password : String
  Tick : Int
  UDP : Bool
  Debug : String
  TagsAttributes : List String
  TopicMap : List String
  NoTopicTag : Bool
  Series : String
  CaCerts : List String
  Scheme : String
  Insecure : Bool
  deriving DecidableEq, Repr

/-- The fields of `InfluxDBClient` that `influxdb.go` itself reads and writes.
The fields `Client` and `Coder` are the collaborators of `Collab` below, and the
two channels are the source of the events of `Event`. -/
structure InfluxDBClient where
  Config : InfluxDBConf
  Status : Status
  Tick : Int
  Buffer : Deque
  deriving DecidableEq, Repr

/-- The collaborators of the client: `ifc.Coder.Encode` and `ifc.Client.Write`.
Both act on a world state `ω`; `Write` returns the error, if any. -/
structure Collab (ω β ε : Type) where
  Encode : ω → List Message → β × ω
  Write : ω → β → Option ε × ω

/-- A call made on a collaborator, in the order of occurrence. -/
inductive Call (β : Type) where
  | encode (buf : List Message)
  | write (bp : β)
  deriving DecidableEq, Repr

/-! ## NewInfluxDBClient -/

/-- The address `host` computed at the top of `NewInfluxDBClient`: `conf.Url`
when it is not empty, and otherwise the result of
`fmt.Sprintf("%s://%s:%d", conf.Scheme, conf.Hostname, conf.Port)`. The local
variable `scheme` is computed by the source and not used by the format call. -/
def NewInfluxDBClient.host (conf : InfluxDBConf) : String :=
  let host := conf.Url
  if host.length = 0 then
    let scheme := conf.Scheme
    let _scheme := if scheme = "" then "http" else scheme
    conf.Scheme ++ "://" ++ conf.Hostname ++ ":" ++ toString conf.Port
  else
    host

/-- The constructor `NewInfluxDBClient`. The steps that can fail (`url.Parse`, building the HTTP
client, the connectivity `Ping`) are the parameter `connect`, which receives the
address and returns the error, if any. On success the client is returned with
status `Stopped` and an empty buffer capped at `MaxBufferSize * 2`. -/
def NewInfluxDBClient {ε : Type} (MaxBufferSize : Nat) (connect : String → Option ε)
    (conf : InfluxDBConf) : Except ε InfluxDBClient :=
  let host := NewInfluxDBClient.host conf
  match connect host with
  | some err => Except.error err
  | none =>
    let tick := conf.Tick
    let tick := if tick = 0 then DefaultTick else tick
    Except.ok
      { Tick := tick
        Status := Status.Stopped
        Config := conf
        Buffer := NewCappedDeque ((MaxBufferSize : Int) * 2) }

/-! ## Send -/

/-- The `for i := 0; i < MaxBufferSize; i++` loop of `Send`. The first argument
is the number of iterations still to run and `i` the loop index, so the loop is
entered with `MaxBufferSize` and `0`. Each iteration shifts one item off the
deque and stops at nil, at an item that is not a `Message`, and at a zero-value
`Message`; otherwise the message is stored in `buf[i]`. -/
def Send.loop : Nat → Nat → Deque → List Message → Deque × List Message
  | 0, _, d, buf => (d, buf)
  | n + 1, i, d, buf =>
    match d.Shift with
    | (d', Item.nilValue) => (d', buf)
    | (d', Item.other _) => (d', buf)
    | (d', Item.message m) =>
      if m.isZero then (d', buf)
      else Send.loop n (i + 1) d' (buf.set i m)

/-- What one call of `Send` yields: the buffer and world afterwards, the calls
made on the collaborators, and the returned error (`none` for `nil`). -/
structure SendResult (ω β ε : Type) where
  Buffer : Deque
  world : ω
  calls : List (Call β)
  err : Option ε

/-- The method `InfluxDBClient.Send`: nothing is done on an empty buffer;
otherwise the loop fills the working buffer of `MaxBufferSize` zero-value
messages, the buffer is encoded, the result is written, and the error of the
write (or nil) is returned. -/
def Send {ω β ε : Type} (MaxBufferSize : Nat) (co : Collab ω β ε) (w : ω) (d : Deque) :
    SendResult ω β ε :=
  if d.Size = 0 then
    { Buffer := d, world := w, calls := [], err := none }
  else
    let buf := List.replicate MaxBufferSize Message.zero
    let r := Send.loop MaxBufferSize 0 d buf
    let e := co.Encode w r.2
    let wr := co.Write e.2 e.1
    { Buffer := r.1, world := wr.2, calls := [Call.encode r.2, Call.write e.1], err := wr.1 }

/-! ## Start -/

/-- An event taken by the `select` of `Start`: a tick of the ticker, a message
from `ifChan`, or a command from `commandChan`. -/
inductive Event where
  | tick
  | message (msg : Message)
  | command (msg : String)
  deriving DecidableEq, Repr

/-- The state of the loop of `Start`: the client, whether the ticker is still
running (`ticker.Stop()` has not been called), and the world. -/
structure LoopState (ω : Type) where
  ifc : InfluxDBClient
  ticker : Bool
  world : ω

/-- What handling one event yields: the state afterwards, the error with which
`Start` returned (if it did), the value `err` that `Send` returned (when `Send`
was called), and the calls made on the collaborators. -/
structure StepResult (ω β ε : Type) where
  state : LoopState ω
  returned : Option String
  sendErr : Option (Option ε)
  calls : List (Call β)

/-- One iteration of the `for { select { ... } }` of `Start`. -/
def Start.step {ω β ε : Type} (MaxBufferSize : Nat) (co : Collab ω β ε)
    (s : LoopState ω) : Event → StepResult ω β ε
  | Event.tick =>
    if s.ifc.Status = Status.Stopped then
      { state := s, returned := some "stopped by Status", sendErr := none, calls := [] }
    else
      let r := Send MaxBufferSize co s.world s.ifc.Buffer
      { state := { s with ifc := { s.ifc with Buffer := r.Buffer }, world := r.world }
        returned := none, sendErr := some r.err, calls := r.calls }
  | Event.message msg =>
    { state := { s with ifc := { s.ifc with Buffer := (s.ifc.Buffer.Append (Item.message msg)).1 } }
      returned := none, sendErr := none, calls := [] }
  | Event.command msg =>
    if msg = "stop" then
      { state := { s with ifc := { s.ifc with Status := Status.Stopped }, ticker := false }
        returned := none, sendErr := none, calls := [] }
    else
      { state := s, returned := none, sendErr := none, calls := [] }

/-- The record of one handled event: the state before it, the event, and what
handling it yielded. -/
structure Handled (ω β ε : Type) where
  before : LoopState ω
  event : Event
  result : StepResult ω β ε

/-- The loop of `Start` over a finite sequence of events: the events are handled
one after another until one makes `Start` return; later events are not handled.
The result is the record of the events handled, in order. -/
def Start.loop {ω β ε : Type} (MaxBufferSize : Nat) (co : Collab ω β ε) :
    LoopState ω → List Event → List (Handled ω β ε)
  | _, [] => []
  | s, ev :: rest =>
    let r := Start.step MaxBufferSize co s ev
    { before := s, event := ev, result := r } ::
      (match r.returned with
       | some _ => []
       | none => Start.loop MaxBufferSize co r.state rest)

/-- The state in which `Start` enters its loop: `ifc.Status = StatusStarted` and
a running ticker. -/
def Start.enter {ω : Type} (ifc : InfluxDBClient) (w : ω) : LoopState ω :=
  { ifc := { ifc with Status := Status.Started }, ticker := true, world := w }

/-- The method `InfluxDBClient.Start` over a finite sequence of events. -/
def Start {ω β ε : Type} (MaxBufferSize : Nat) (co : Collab ω β ε) (ifc : InfluxDBClient)
    (w : ω) (events : List Event) : List (Handled ω β ε) :=
  Start.loop MaxBufferSize co (Start.enter ifc w) events

/-- The state reached after a record of handled events, from the state `s`. -/
def Start.final {ω β ε : Type} : LoopState ω → List (Handled ω β ε) → LoopState ω
  | s, [] => s
  | _, h :: rest => Start.final h.result.state rest

/-! ## Auxiliary notions used to state the properties -/

/-- Whether an item ends the loop of `Send` when it is shifted off: nil, a value
that is not a `Message`, or a zero-value `Message`. -/
def Item.stops : Item → Bool
  | Item.message m => m.isZero
  | Item.other _ => true
  | Item.nilValue => true

/-- The buffer `buf` after the messages `ms` have been stored at the indices
`i`, `i + 1`, ... in turn. -/
def storeFrom : List Message → Nat → List Message → List Message
  | buf, _, [] => buf
  | buf, i, m :: ms => storeFrom (buf.set i m) (i + 1) ms

/-- The results of `n` successive calls of `Deque.Shift`, in order. -/
def Deque.shifts : Nat → Deque → List Item
  | 0, _ => []
  | n + 1, d => d.Shift.2 :: Deque.shifts n d.Shift.1

/-- The batch that `Send` hands to the encoder when the queue `d` is not empty:
the working buffer as the loop of `Send` leaves it. -/
def Send.batch (MaxBufferSize : Nat) (d : Deque) : List Message :=
  (Send.loop MaxBufferSize 0 d (List.replicate MaxBufferSize Message.zero)).2

/-- A collaborator pair for worked examples: the world counts the calls made,
the encoder hands the buffer on as the batch of points, and every write returns
the given result. -/
def demoCollab (result : Option String) : Collab Nat (List Message) String :=
  { Encode := fun w buf => (buf, w + 1)
    Write := fun w _ => (result, w + 1) }

/-- A message for worked examples. -/
def demoMsg (n : Nat) : Message := { Topic := "t", Payload := [n] }

/-- A configuration for worked examples: no `Url`, no `Scheme`, host `h`, port
`8086`. -/
def demoConf : InfluxDBConf :=
  { Hostname := "h", Port := 8086, Url := "", Db := "db", UserName := "", Password := "",
    Tick := 0, UDP := false, Debug := "", TagsAttributes := [], TopicMap := [],
    NoTopicTag := false, Series := "", CaCerts := [], Scheme := "", Insecure := false }

/-- A loop state for worked examples: status, queued items and capacity as
given, ticker running, no call made yet. -/
def demoState (st : Status) (items : List Item) (capacity : Int) : LoopState Nat :=
  { ifc := { Config := demoConf, Status := st, Tick := 1,
             Buffer := { container := items, capacity := capacity } }
    ticker := true
    world := 0 }

/-! ## Lemmas on the deque -/

theorem Deque.Shift_nil (s : Deque) (h : s.container = []) :
    s.Shift = (s, Item.nilValue) := by
  unfold Deque.Shift
  rw [h]

theorem Deque.Shift_cons (s : Deque) (x : Item) (rest : List Item)
    (h : s.container = x :: rest) :
    s.Shift = ({ s with container := rest }, x) := by
  unfold Deque.Shift
  rw [h]

theorem Deque.Append_below (s : Deque) (item : Item)
    (h : s.capacity < 0 ∨ (s.container.length : Int) < s.capacity) :
    s.Append item = ({ s with container := s.container ++ [item] }, true) := by
  unfold Deque.Append
  rw [if_pos h]

theorem Deque.Append_full (s : Deque) (item : Item)
    (h0 : 0 ≤ s.capacity) (h : s.capacity ≤ (s.container.length : Int)) :
    s.Append item = (s, false) := by
  unfold Deque.Append
  rw [if_neg]
  omega

theorem Deque.Append_capacity (s : Deque) (item : Item) :
    (s.Append item).1.capacity = s.capacity := by
  unfold Deque.Append
  split <;> rfl

theorem Deque.Append_bounded (s : Deque) (item : Item) (h0 : 0 ≤ s.capacity)
    (h : (s.Size : Int) ≤ s.capacity) :
    ((s.Append item).1.Size : Int) ≤ s.capacity := by
  unfold Deque.Append Deque.Size at *
  split
  · simp only [List.length_append, List.length_singleton]
    omega
  · exact h

/-! ## Lemmas on the loop of Send -/

theorem storeFrom_replicate (ms pre : List Message) (k : Nat) (h : ms.length ≤ k) :
    storeFrom (pre ++ List.replicate k Message.zero) pre.length ms
      = pre ++ ms ++ List.replicate (k - ms.length) Message.zero := by
  induction ms generalizing pre k with
  | nil => simp [storeFrom]
  | cons m ms ih =>
    obtain ⟨k, rfl⟩ : ∃ j, k = j + 1 := ⟨k - 1, by simp at h; omega⟩
    have hset : (pre ++ List.replicate (k + 1) Message.zero).set pre.length m
        = (pre ++ [m]) ++ List.replicate k Message.zero := by
      simp [List.replicate_succ]
    have hlen : pre.length + 1 = (pre ++ [m]).length := by simp
    simp only [storeFrom]
    rw [hset, hlen, ih (pre ++ [m]) k (by simpa using h)]
    simp

theorem storeFrom_zero (ms : List Message) (M : Nat) (h : ms.length ≤ M) :
    storeFrom (List.replicate M Message.zero) 0 ms
      = ms ++ List.replicate (M - ms.length) Message.zero := by
  simpa using storeFrom_replicate ms [] M h

theorem Send.loop_full (ms : List Message) (i : Nat) (d : Deque) (buf : List Message)
    (rest : List Item) (hnz : ∀ m ∈ ms, m.isZero = false)
    (hd : d.container = ms.map Item.message ++ rest) :
    Send.loop ms.length i d buf = ({ d with container := rest }, storeFrom buf i ms) := by
  induction ms generalizing i d buf with
  | nil =>
    simp only [List.map_nil, List.nil_append] at hd
    simp only [List.length_nil, Send.loop, storeFrom]
    cases d
    simp_all
  | cons m ms ih =>
    simp only [List.map_cons, List.cons_append] at hd
    have hm : m.isZero = false := hnz m (by simp)
    simp only [List.length_cons, Send.loop, Deque.Shift_cons d _ _ hd, hm, storeFrom]
    simp only [Bool.false_eq_true, if_false]
    rw [ih (i + 1) _ _ (fun x hx => hnz x (by simp [hx])) rfl]

theorem Send.loop_stop (ms : List Message) (n i : Nat) (d : Deque) (buf : List Message)
    (rest : List Item) (hnz : ∀ m ∈ ms, m.isZero = false)
    (hd : d.container = ms.map Item.message ++ rest) (hn : ms.length < n)
    (hstop : ∀ x ∈ rest.head?, x.stops = true) :
    Send.loop n i d buf = ({ d with container := rest.tail }, storeFrom buf i ms) := by
  induction ms generalizing n i d buf with
  | nil =>
    simp only [List.map_nil, List.nil_append] at hd
    obtain ⟨n, rfl⟩ : ∃ j, n = j + 1 := ⟨n - 1, by simp at hn; omega⟩
    cases rest with
    | nil =>
      simp only [Send.loop, Deque.Shift_nil d hd, storeFrom, List.tail_nil]
      cases d
      simp_all
    | cons x r =>
      have hx : x.stops = true := hstop x (by simp)
      simp only [Send.loop, Deque.Shift_cons d _ _ hd, storeFrom, List.tail_cons]
      cases x with
      | message m =>
        have hm : m.isZero = true := hx
        simp [hm]
      | other t => rfl
      | nilValue => rfl
  | cons m ms ih =>
    simp only [List.map_cons, List.cons_append] at hd
    obtain ⟨n, rfl⟩ : ∃ j, n = j + 1 := ⟨n - 1, by simp at hn; omega⟩
    have hm : m.isZero = false := hnz m (by simp)
    simp only [Send.loop, Deque.Shift_cons d _ _ hd, hm, storeFrom]
    simp only [Bool.false_eq_true, if_false]
    rw [ih n (i + 1) _ _ (fun x hx => hnz x (by simp [hx])) rfl (by simpa using hn)]

theorem Send.loop_capacity (n i : Nat) (d : Deque) (buf : List Message) :
    (Send.loop n i d buf).1.capacity = d.capacity := by
  induction n generalizing i d buf with
  | zero => rfl
  | succ n ih =>
    unfold Send.loop
    cases hc : d.container with
    | nil => simp [Deque.Shift_nil d hc]
    | cons x r =>
      rw [Deque.Shift_cons d x r hc]
      cases x with
      | message m =>
        by_cases hm : m.isZero = true
        · simp [hm]
        · simp [hm, ih]
      | other t => rfl
      | nilValue => rfl

theorem Send.loop_size_le (n i : Nat) (d : Deque) (buf : List Message) :
    (Send.loop n i d buf).1.Size ≤ d.Size := by
  induction n generalizing i d buf with
  | zero => exact Nat.le_refl _
  | succ n ih =>
    unfold Send.loop
    cases hc : d.container with
    | nil => simp [Deque.Shift_nil d hc]
    | cons x r =>
      rw [Deque.Shift_cons d x r hc]
      have hr : r.length ≤ d.Size := by simp [Deque.Size, hc]
      cases x with
      | message m =>
        by_cases hm : m.isZero = true
        · simpa [hm, Deque.Size] using hr
        · simp only [hm, Bool.false_eq_true, if_false]
          exact Nat.le_trans (ih _ _ _) (by simpa [Deque.Size] using hr)
      | other t => simpa [Deque.Size] using hr
      | nilValue => simpa [Deque.Size] using hr

theorem filter_nonzero_batch (ms : List Message) (k : Nat)
    (hnz : ∀ m ∈ ms, m.isZero = false) :
    (ms ++ List.replicate k Message.zero).filter (fun m => !m.isZero) = ms := by
  have hz : Message.zero.isZero = true := rfl
  rw [List.filter_append]
  have h1 : ms.filter (fun m => !m.isZero) = ms := by
    rw [List.filter_eq_self]
    intro m hm
    simp [hnz m hm]
  have h2 : (List.replicate k Message.zero).filter (fun m => !m.isZero) = [] := by
    rw [List.filter_eq_nil_iff]
    intro m hm
    rw [List.eq_of_mem_replicate hm]
    simp [hz]
  rw [h1, h2, List.append_nil]

theorem Send_nonempty {ω β ε : Type} (M : Nat) (co : Collab ω β ε) (w : ω) (d : Deque)
    (h : d.Size ≠ 0) :
    Send M co w d =
      { Buffer := (Send.loop M 0 d (List.replicate M Message.zero)).1
        world := (co.Write
          (co.Encode w (Send.loop M 0 d (List.replicate M Message.zero)).2).2
          (co.Encode w (Send.loop M 0 d (List.replicate M Message.zero)).2).1).2
        calls := [Call.encode (Send.loop M 0 d (List.replicate M Message.zero)).2,
          Call.write (co.Encode w (Send.loop M 0 d (List.replicate M Message.zero)).2).1]
        err := (co.Write
          (co.Encode w (Send.loop M 0 d (List.replicate M Message.zero)).2).2
          (co.Encode w (Send.loop M 0 d (List.replicate M Message.zero)).2).1).1 } := by
  unfold Send
  rw [if_neg h]

theorem Send_capacity {ω β ε : Type} (M : Nat) (co : Collab ω β ε) (w : ω) (d : Deque) :
    (Send M co w d).Buffer.capacity = d.capacity := by
  unfold Send
  split
  · rfl
  · exact Send.loop_capacity _ _ _ _

theorem Send_size_le {ω β ε : Type} (M : Nat) (co : Collab ω β ε) (w : ω) (d : Deque) :
    (Send M co w d).Buffer.Size ≤ d.Size := by
  unfold Send
  split
  · exact Nat.le_refl _
  · exact Send.loop_size_le _ _ _ _

/-! ## Send -/

/-- C8: when the queue is empty, `Send` returns nil without calling the encoder
or the writer, and leaves the queue (and the world) as it was. -/
theorem Send_empty {ω β ε : Type} (M : Nat) (co : Collab ω β ε) (w : ω) (d : Deque)
    (h : d.Size = 0) :
    (Send M co w d).err = none ∧ (Send M co w d).calls = [] ∧
      (Send M co w d).Buffer = d ∧ (Send M co w d).world = w ∧
      (Send M co w d).Buffer.Size = 0 := by
  unfold Send
  rw [if_pos h]
  exact ⟨rfl, rfl, rfl, rfl, h⟩

theorem Send_empty_witness :
    (NewCappedDeque 10).Size = 0 ∧
      ((Send 5 (demoCollab (some "down")) 0 (NewCappedDeque 10)).err = none ∧
       (Send 5 (demoCollab (some "down")) 0 (NewCappedDeque 10)).calls = [] ∧
       (Send 5 (demoCollab (some "down")) 0 (NewCappedDeque 10)).Buffer = NewCappedDeque 10 ∧
       (Send 5 (demoCollab (some "down")) 0 (NewCappedDeque 10)).world = 0 ∧
       (Send 5 (demoCollab (some "down")) 0 (NewCappedDeque 10)).Buffer.Size = 0) :=
  ⟨rfl, Send_empty 5 (demoCollab (some "down")) 0 (NewCappedDeque 10) rfl⟩

/-- C1: for a queue of `n ≥ 1` messages, none of them the zero-value message,
one call of `Send` removes the first `k = min n MaxBufferSize` messages, hands
the encoder the batch made of those `k` messages in arrival order followed by
zero-value messages only (so the batch holds at most `MaxBufferSize` messages),
calls `Write` once, with the encoder's result, returns what `Write` returned,
and leaves the other `n - k` messages queued in order; when
`n ≤ MaxBufferSize` the queue is empty afterwards. -/
theorem Send_flush {ω β ε : Type} (M : Nat) (co : Collab ω β ε) (w : ω) (d : Deque)
    (ms : List Message) (hd : d.container = ms.map Item.message)
    (hne : 1 ≤ ms.length) (hnz : ∀ m ∈ ms, m.isZero = false) :
    let k := min ms.length M
    let batch := ms.take k ++ List.replicate (M - k) Message.zero
    let r := Send M co w d
    r.Buffer = { d with container := (ms.drop k).map Item.message } ∧
      r.calls = [Call.encode batch, Call.write (co.Encode w batch).1] ∧
      r.err = (co.Write (co.Encode w batch).2 (co.Encode w batch).1).1 ∧
      batch.take k = ms.take k ∧
      (∀ m ∈ batch.drop k, m = Message.zero) ∧
      batch.filter (fun m => !m.isZero) = ms.take k ∧
      (batch.filter (fun m => !m.isZero)).length ≤ M ∧
      r.Buffer.Size = ms.length - k ∧
      (ms.length ≤ M → r.Buffer.Size = 0) := by
  intro k batch r
  have hk : k ≤ M := Nat.min_le_right _ _
  have hkl : k ≤ ms.length := Nat.min_le_left _ _
  have htl : (ms.take k).length = k := by simp [List.length_take, hkl]
  have hnz1 : ∀ m ∈ ms.take k, m.isZero = false :=
    fun m hm => hnz m (List.mem_of_mem_take hm)
  have hsplit : d.container = (ms.take k).map Item.message ++ (ms.drop k).map Item.message := by
    rw [hd, ← List.map_append, List.take_append_drop]
  have hsize : d.Size ≠ 0 := by
    simp only [Deque.Size, hd, List.length_map]
    omega
  have hloop : Send.loop M 0 d (List.replicate M Message.zero)
      = ({ d with container := (ms.drop k).map Item.message }, batch) := by
    have hbatch : storeFrom (List.replicate M Message.zero) 0 (ms.take k) = batch := by
      rw [storeFrom_zero _ _ (by omega), htl]
    rcases Nat.lt_or_ge ms.length M with hlt | hge
    · have hkeq : k = ms.length := Nat.min_eq_left (Nat.le_of_lt hlt)
      have hdrop : ms.drop k = [] := by rw [hkeq, List.drop_length]
      rw [Send.loop_stop (ms.take k) M 0 d _ ((ms.drop k).map Item.message) hnz1 hsplit
        (by omega) (by simp [hdrop]), hbatch]
      simp [hdrop]
    · have hkeq : k = M := Nat.min_eq_right hge
      have h := Send.loop_full (ms.take k) 0 d (List.replicate M Message.zero)
        ((ms.drop k).map Item.message) hnz1 hsplit
      rw [htl, hbatch] at h
      rw [← hkeq]
      rw [hkeq] at h ⊢
      exact h
  have hr : r = _ := Send_nonempty M co w d hsize
  have hfilter : batch.filter (fun m => !m.isZero) = ms.take k :=
    filter_nonzero_batch _ _ hnz1
  have hB : r.Buffer = { d with container := (ms.drop k).map Item.message } := by
    rw [hr, hloop]
  refine ⟨hB, ?_, ?_, ?_, ?_, hfilter, ?_, ?_, ?_⟩
  · rw [hr, hloop]
  · rw [hr, hloop]
  · rw [List.take_append_of_le_length (by omega), List.take_take]
    simp
  · intro m hm
    rw [List.drop_append_of_le_length (by omega)] at hm
    rw [List.drop_of_length_le (by omega), List.nil_append] at hm
    exact List.eq_of_mem_replicate hm
  · rw [hfilter, htl]
    exact hk
  · rw [hB]
    simp [Deque.Size]
  · intro hle
    rw [hB]
    simp only [Deque.Size, List.length_map, List.length_drop]
    have : k = ms.length := Nat.min_eq_left hle
    omega

theorem Send_flush_witness :
    ((({ container := [Item.message (demoMsg 1), Item.message (demoMsg 2),
          Item.message (demoMsg 3)], capacity := 10 } : Deque).container
        = [demoMsg 1, demoMsg 2, demoMsg 3].map Item.message) ∧
      1 ≤ [demoMsg 1, demoMsg 2, demoMsg 3].length ∧
      (∀ m ∈ [demoMsg 1, demoMsg 2, demoMsg 3], m.isZero = false)) ∧
    (Send 5 (demoCollab none) 0
        { container := [Item.message (demoMsg 1), Item.message (demoMsg 2),
            Item.message (demoMsg 3)], capacity := 10 }).Buffer
      = { container := [], capacity := 10 } ∧
    (Send 5 (demoCollab none) 0
        { container := [Item.message (demoMsg 1), Item.message (demoMsg 2),
            Item.message (demoMsg 3)], capacity := 10 }).calls
      = [Call.encode [demoMsg 1, demoMsg 2, demoMsg 3, Message.zero, Message.zero],
         Call.write [demoMsg 1, demoMsg 2, demoMsg 3, Message.zero, Message.zero]] ∧
    (Send 5 (demoCollab none) 0
        { container := [Item.message (demoMsg 1), Item.message (demoMsg 2),
            Item.message (demoMsg 3)], capacity := 10 }).err = none :=
  have h := Send_flush 5 (demoCollab none) 0
    { container := [Item.message (demoMsg 1), Item.message (demoMsg 2),
        Item.message (demoMsg 3)], capacity := 10 }
    [demoMsg 1, demoMsg 2, demoMsg 3] rfl (by decide) (by decide)
  ⟨⟨rfl, by decide, by decide⟩, h.1, h.2.1, h.2.2.1⟩

/-- C9: when the first item of the queue that is a zero-value message, or is
not a message at all (an `Item` that `stops`), sits at position `j <
MaxBufferSize` behind `j` non-zero messages, `Send` returns just what `Write`
returns (no error of its own), hands the encoder the batch whose non-zero
entries are those `j` messages in arrival order, removes those `j` messages and
the stopping item itself, and leaves the items behind it queued in order. -/
theorem Send_sentinel {ω β ε : Type} (M : Nat) (co : Collab ω β ε) (w : ω) (d : Deque)
    (ms : List Message) (x : Item) (rest : List Item)
    (hd : d.container = ms.map Item.message ++ x :: rest)
    (hnz : ∀ m ∈ ms, m.isZero = false) (hx : x.stops = true) (hj : ms.length < M) :
    let batch := ms ++ List.replicate (M - ms.length) Message.zero
    let r := Send M co w d
    r.Buffer = { d with container := rest } ∧
      r.calls = [Call.encode batch, Call.write (co.Encode w batch).1] ∧
      r.err = (co.Write (co.Encode w batch).2 (co.Encode w batch).1).1 ∧
      batch.filter (fun m => !m.isZero) = ms := by
  intro batch r
  have hsize : d.Size ≠ 0 := by
    simp [Deque.Size, hd]
  have hloop : Send.loop M 0 d (List.replicate M Message.zero)
      = ({ d with container := rest }, batch) := by
    rw [Send.loop_stop ms M 0 d _ (x :: rest) hnz hd hj (by simpa using hx),
      storeFrom_zero _ _ (Nat.le_of_lt hj)]
    rfl
  have hr : r = _ := Send_nonempty M co w d hsize
  refine ⟨?_, ?_, ?_, filter_nonzero_batch _ _ hnz⟩
  · rw [hr, hloop]
  · rw [hr, hloop]
  · rw [hr, hloop]

theorem Send_sentinel_witness :
    ((({ container := [Item.message (demoMsg 1), Item.message Message.zero,
          Item.message (demoMsg 2)], capacity := 10 } : Deque).container
        = [demoMsg 1].map Item.message ++ Item.message Message.zero :: [Item.message (demoMsg 2)]) ∧
      (∀ m ∈ [demoMsg 1], m.isZero = false) ∧
      (Item.message Message.zero).stops = true ∧ [demoMsg 1].length < 3) ∧
    (Send 3 (demoCollab none) 0
        { container := [Item.message (demoMsg 1), Item.message Message.zero,
            Item.message (demoMsg 2)], capacity := 10 }).Buffer
      = { container := [Item.message (demoMsg 2)], capacity := 10 } ∧
    (Send 3 (demoCollab none) 0
        { container := [Item.message (demoMsg 1), Item.message Message.zero,
            Item.message (demoMsg 2)], capacity := 10 }).calls
      = [Call.encode [demoMsg 1, Message.zero, Message.zero],
         Call.write [demoMsg 1, Message.zero, Message.zero]] ∧
    (Send 3 (demoCollab none) 0
        { container := [Item.message (demoMsg 1), Item.message Message.zero,
            Item.message (demoMsg 2)], capacity := 10 }).err = none :=
  have h := Send_sentinel 3 (demoCollab none) 0
    { container := [Item.message (demoMsg 1), Item.message Message.zero,
        Item.message (demoMsg 2)], capacity := 10 }
    [demoMsg 1] (Item.message Message.zero) [Item.message (demoMsg 2)]
    rfl (by decide) rfl (by decide)
  ⟨⟨rfl, by decide, rfl, by decide⟩, h.1, h.2.1, h.2.2.1⟩

/-- C3: when the `Write` of a `Send` on a non-empty queue fails with error `e`,
`Send` returns `e`, and the queue afterwards is the queue any other `Send` from
the same queue leaves, a successful one included (nothing is put back); a tick
handled in status `Started` whose `Send` fails so does not make `Start` return,
leaves the status `Started`, and the loop goes on with the next event. -/
theorem Send_write_failure {ω β ε : Type} (M : Nat) (co : Collab ω β ε) (w : ω) (d : Deque)
    (e : ε) (hsize : d.Size ≠ 0)
    (hfail : (co.Write (co.Encode w (Send.batch M d)).2
      (co.Encode w (Send.batch M d)).1).1 = some e) :
    (Send M co w d).err = some e ∧
      (∀ (co' : Collab ω β ε) (w' : ω),
        (co'.Write (co'.Encode w' (Send.batch M d)).2
          (co'.Encode w' (Send.batch M d)).1).1 = none →
        (Send M co' w' d).err = none ∧ (Send M co w d).Buffer = (Send M co' w' d).Buffer) ∧
      (∀ s : LoopState ω, s.ifc.Buffer = d → s.world = w → s.ifc.Status = Status.Started →
        (Start.step M co s Event.tick).returned = none ∧
        (Start.step M co s Event.tick).sendErr = some (some e) ∧
        (Start.step M co s Event.tick).state.ifc.Status = Status.Started ∧
        (Start.step M co s Event.tick).state.ifc.Buffer = (Send M co w d).Buffer ∧
        ∀ evs : List Event, Start.loop M co s (Event.tick :: evs) =
          { before := s, event := Event.tick, result := Start.step M co s Event.tick } ::
            Start.loop M co (Start.step M co s Event.tick).state evs) := by
  have herr : (Send M co w d).err = some e := by
    rw [Send_nonempty M co w d hsize]
    exact hfail
  refine ⟨herr, ?_, ?_⟩
  · intro co' w' hok
    rw [Send_nonempty M co w d hsize, Send_nonempty M co' w' d hsize]
    exact ⟨hok, rfl⟩
  · intro s hb hw hst
    have hstep : Start.step M co s Event.tick =
        { state := { s with ifc := { s.ifc with Buffer := (Send M co w d).Buffer },
                            world := (Send M co w d).world }
          returned := none, sendErr := some (Send M co w d).err
          calls := (Send M co w d).calls } := by
      simp [Start.step, hst, hb, hw]
    refine ⟨?_, ?_, ?_, ?_, ?_⟩
    · rw [hstep]
    · rw [hstep, herr]
    · rw [hstep]
      exact hst
    · rw [hstep]
    · intro evs
      simp only [Start.loop]
      rw [hstep]

theorem Send_write_failure_witness :
    ((demoState Status.Started [Item.message (demoMsg 1)] 10).ifc.Buffer.Size ≠ 0 ∧
      ((demoCollab (some "down")).Write
        ((demoCollab (some "down")).Encode 0
          (Send.batch 5 (demoState Status.Started [Item.message (demoMsg 1)] 10).ifc.Buffer)).2
        ((demoCollab (some "down")).Encode 0
          (Send.batch 5 (demoState Status.Started [Item.message (demoMsg 1)] 10).ifc.Buffer)).1).1
        = some "down") ∧
    (Send 5 (demoCollab (some "down")) 0
      (demoState Status.Started [Item.message (demoMsg 1)] 10).ifc.Buffer).err = some "down" ∧
    (Send 5 (demoCollab (some "down")) 0
      (demoState Status.Started [Item.message (demoMsg 1)] 10).ifc.Buffer).Buffer
      = (Send 5 (demoCollab none) 0
          (demoState Status.Started [Item.message (demoMsg 1)] 10).ifc.Buffer).Buffer ∧
    (Start.step 5 (demoCollab (some "down"))
      (demoState Status.Started [Item.message (demoMsg 1)] 10) Event.tick).returned = none ∧
    (Start.step 5 (demoCollab (some "down"))
      (demoState Status.Started [Item.message (demoMsg 1)] 10) Event.tick).state.ifc.Status
      = Status.Started :=
  have h := Send_write_failure 5 (demoCollab (some "down")) 0
    (demoState Status.Started [Item.message (demoMsg 1)] 10).ifc.Buffer "down"
    (by decide) rfl
  have hs := h.2.2 (demoState Status.Started [Item.message (demoMsg 1)] 10) rfl rfl rfl
  ⟨⟨by decide, rfl⟩, h.1, (h.2.1 (demoCollab none) 0 rfl).2, hs.1, hs.2.2.1⟩

/-! ## Start -/

theorem Start.loop_result {ω β ε : Type} (M : Nat) (co : Collab ω β ε) (s : LoopState ω)
    (evs : List Event) :
    ∀ h ∈ Start.loop M co s evs, h.result = Start.step M co h.before h.event := by
  induction evs generalizing s with
  | nil => intro h hh; simp [Start.loop] at hh
  | cons ev rest ih =>
    intro h hh
    simp only [Start.loop, List.mem_cons] at hh
    rcases hh with rfl | hh
    · rfl
    · cases hr : (Start.step M co s ev).returned with
      | some err => rw [hr] at hh; simp at hh
      | none => rw [hr] at hh; exact ih _ h hh

theorem Start.step_sendErr {ω β ε : Type} (M : Nat) (co : Collab ω β ε) (s : LoopState ω)
    (ev : Event) (h : (Start.step M co s ev).sendErr ≠ none) :
    ev = Event.tick ∧ s.ifc.Status = Status.Started := by
  cases ev with
  | tick =>
    refine ⟨rfl, ?_⟩
    cases hst : s.ifc.Status with
    | Stopped => simp [Start.step, hst] at h
    | Started => rfl
  | message msg => simp [Start.step] at h
  | command msg =>
    by_cases hc : msg = "stop" <;> simp [Start.step, hc] at h

theorem Start.step_calls {ω β ε : Type} (M : Nat) (co : Collab ω β ε) (s : LoopState ω)
    (ev : Event) (h : (Start.step M co s ev).calls ≠ []) :
    (Start.step M co s ev).sendErr ≠ none := by
  cases ev with
  | tick =>
    cases hst : s.ifc.Status with
    | Stopped => simp [Start.step, hst] at h
    | Started => simp [Start.step, hst]
  | message msg => simp [Start.step] at h
  | command msg =>
    by_cases hc : msg = "stop" <;> simp [Start.step, hc] at h

/-- C4: handling the command "stop" leaves the status `Stopped`; a tick handled
in status `Stopped` makes `Start` return the error "stopped by Status" with the
state untouched, `Send` not called and no call made on the encoder or writer,
and ends the loop; status `Stopped` is kept by every event; and over every
sequence of events, `Send` is called (and the encoder or writer reached) only
by a tick handled in status `Started`, and every such tick does call `Send`. -/
theorem Start_stop_machine {ω β ε : Type} (M : Nat) (co : Collab ω β ε) :
    (∀ s : LoopState ω,
      (Start.step M co s (Event.command "stop")).state.ifc.Status = Status.Stopped ∧
      (Start.step M co s (Event.command "stop")).returned = none) ∧
    (∀ s : LoopState ω, s.ifc.Status = Status.Stopped →
      Start.step M co s Event.tick =
        { state := s, returned := some "stopped by Status", sendErr := none, calls := [] } ∧
      ∀ evs : List Event, Start.loop M co s (Event.tick :: evs) =
        [{ before := s, event := Event.tick, result := Start.step M co s Event.tick }]) ∧
    (∀ (s : LoopState ω) (ev : Event), s.ifc.Status = Status.Stopped →
      (Start.step M co s ev).state.ifc.Status = Status.Stopped) ∧
    (∀ (s : LoopState ω) (evs : List Event), ∀ h ∈ Start.loop M co s evs,
      (h.result.sendErr ≠ none ∨ h.result.calls ≠ []) →
        h.event = Event.tick ∧ h.before.ifc.Status = Status.Started) ∧
    (∀ (s : LoopState ω) (evs : List Event), ∀ h ∈ Start.loop M co s evs,
      h.event = Event.tick → h.before.ifc.Status = Status.Started →
        h.result.sendErr ≠ none) := by
  refine ⟨?_, ?_, ?_, ?_, ?_⟩
  · intro s
    simp [Start.step]
  · intro s hst
    have hstep : Start.step M co s Event.tick =
        { state := s, returned := some "stopped by Status", sendErr := none, calls := [] } := by
      simp [Start.step, hst]
    refine ⟨hstep, ?_⟩
    intro evs
    simp only [Start.loop]
    rw [hstep]
  · intro s ev hst
    cases ev with
    | tick => simp [Start.step, hst]
    | message msg => simpa [Start.step] using hst
    | command msg =>
      by_cases hc : msg = "stop"
      · simp [Start.step, hc]
      · simpa [Start.step, hc] using hst
  · intro s evs h hh hcall
    have hres := Start.loop_result M co s evs h hh
    rw [hres] at hcall
    rcases hcall with hc | hc
    · exact Start.step_sendErr M co _ _ hc
    · exact Start.step_sendErr M co _ _ (Start.step_calls M co _ _ hc)
  · intro s evs h hh hev hst
    rw [Start.loop_result M co s evs h hh, hev]
    simp [Start.step, hst]

theorem Start_stop_machine_witness :
    (Start.step 5 (demoCollab none) (demoState Status.Started [Item.message (demoMsg 1)] 10)
      (Event.command "stop")).state.ifc.Status = Status.Stopped ∧
    ((demoState Status.Stopped [Item.message (demoMsg 1)] 10).ifc.Status = Status.Stopped ∧
      Start.step 5 (demoCollab none) (demoState Status.Stopped [Item.message (demoMsg 1)] 10)
        Event.tick =
        { state := demoState Status.Stopped [Item.message (demoMsg 1)] 10
          returned := some "stopped by Status", sendErr := none, calls := [] }) :=
  have h := Start_stop_machine 5 (demoCollab none)
  ⟨(h.1 (demoState Status.Started [Item.message (demoMsg 1)] 10)).1, rfl,
    (h.2.1 (demoState Status.Stopped [Item.message (demoMsg 1)] 10) rfl).1⟩

/-- C7: handling a control command never changes the queue, never calls `Send`
(nor the encoder or the writer) and never makes `Start` return; the command
"stop" sets the status to `Stopped`, and any other command leaves the whole
loop state unchanged. -/
theorem Start_command {ω β ε : Type} (M : Nat) (co : Collab ω β ε) (s : LoopState ω)
    (cmd : String) :
    (Start.step M co s (Event.command cmd)).state.ifc.Buffer = s.ifc.Buffer ∧
    (Start.step M co s (Event.command cmd)).sendErr = none ∧
    (Start.step M co s (Event.command cmd)).calls = [] ∧
    (Start.step M co s (Event.command cmd)).returned = none ∧
    (Start.step M co s (Event.command cmd)).state.world = s.world ∧
    (cmd = "stop" →
      (Start.step M co s (Event.command cmd)).state.ifc.Status = Status.Stopped) ∧
    (cmd ≠ "stop" → (Start.step M co s (Event.command cmd)).state = s) := by
  by_cases hc : cmd = "stop"
  · simp [Start.step, hc]
  · simp [Start.step, hc]

theorem Start_command_witness :
    ("stop" = "stop" ∧
      (Start.step 5 (demoCollab none) (demoState Status.Started [Item.message (demoMsg 1)] 10)
        (Event.command "stop")).state.ifc.Status = Status.Stopped ∧
      (Start.step 5 (demoCollab none) (demoState Status.Started [Item.message (demoMsg 1)] 10)
        (Event.command "stop")).state.ifc.Buffer
        = (demoState Status.Started [Item.message (demoMsg 1)] 10).ifc.Buffer) ∧
    ("start" ≠ "stop" ∧
      (Start.step 5 (demoCollab none) (demoState Status.Stopped [Item.message (demoMsg 1)] 10)
        (Event.command "start")).state
        = demoState Status.Stopped [Item.message (demoMsg 1)] 10) :=
  have h1 := Start_command 5 (demoCollab none)
    (demoState Status.Started [Item.message (demoMsg 1)] 10) "stop"
  have h2 := Start_command 5 (demoCollab none)
    (demoState Status.Stopped [Item.message (demoMsg 1)] 10) "start"
  ⟨⟨rfl, h1.2.2.2.2.2.1 rfl, h1.1⟩, by decide, h2.2.2.2.2.2.2 (by decide)⟩

theorem Deque.shifts_all (xs : List Item) (c : Int) :
    Deque.shifts xs.length { container := xs, capacity := c } = xs := by
  induction xs with
  | nil => rfl
  | cons x xs ih =>
    simp only [List.length_cons, Deque.shifts, Deque.Shift]
    rw [ih]

theorem Start.step_message_below {ω β ε : Type} (M : Nat) (co : Collab ω β ε)
    (s : LoopState ω) (msg : Message)
    (h : (s.ifc.Buffer.Size : Int) < s.ifc.Buffer.capacity) :
    Start.step M co s (Event.message msg) =
      { state := { s with ifc := { s.ifc with Buffer :=
          { s.ifc.Buffer with container := s.ifc.Buffer.container ++ [Item.message msg] } } }
        returned := none, sendErr := none, calls := [] } := by
  simp only [Start.step]
  rw [Deque.Append_below _ _ (Or.inr h)]

theorem Start.loop_messages {ω β ε : Type} (M : Nat) (co : Collab ω β ε)
    (msgs : List Message) (s : LoopState ω)
    (h : (s.ifc.Buffer.Size : Int) + msgs.length ≤ s.ifc.Buffer.capacity) :
    (Start.loop M co s (msgs.map Event.message)).length = msgs.length ∧
    (∀ x ∈ Start.loop M co s (msgs.map Event.message),
      x.result.returned = none ∧ x.result.sendErr = none ∧ x.result.calls = []) ∧
    Start.final s (Start.loop M co s (msgs.map Event.message)) =
      { s with ifc := { s.ifc with Buffer :=
          { s.ifc.Buffer with
            container := s.ifc.Buffer.container ++ msgs.map Item.message } } } := by
  induction msgs generalizing s with
  | nil => simp [Start.loop, Start.final]
  | cons m ms ih =>
    have hlt : (s.ifc.Buffer.Size : Int) < s.ifc.Buffer.capacity := by
      simp only [List.length_cons, Nat.cast_add, Nat.cast_one] at h
      omega
    have hstep := Start.step_message_below M co s m hlt
    have hroom : (((Start.step M co s (Event.message m)).state.ifc.Buffer.Size : Nat) : Int)
        + ms.length ≤ (Start.step M co s (Event.message m)).state.ifc.Buffer.capacity := by
      rw [hstep]
      simp only [Deque.Size, List.length_append, List.length_singleton, List.length_cons,
        List.length_nil, Nat.cast_add, Nat.cast_one] at h ⊢
      omega
    have ih1 := ih (Start.step M co s (Event.message m)).state hroom
    have hret : (Start.step M co s (Event.message m)).returned = none := by rw [hstep]
    have hloop : Start.loop M co s (Event.message m :: ms.map Event.message) =
        { before := s, event := Event.message m,
          result := Start.step M co s (Event.message m) } ::
          Start.loop M co (Start.step M co s (Event.message m)).state
            (ms.map Event.message) := by
      simp only [Start.loop, hret]
    rw [List.map_cons, hloop]
    refine ⟨by simp [ih1.1], ?_, ?_⟩
    · intro x hx
      rcases List.mem_cons.1 hx with rfl | hx
      · exact ⟨hret, by rw [hstep], by rw [hstep]⟩
      · exact ih1.2.1 x hx
    · simp only [Start.final]
      rw [ih1.2.2, hstep]
      simp

/-- C6: in any status, when the queue has room for an inbound message (and for
the `more` that follow it), handling the message appends it at the tail,
leaves the messages queued before it, the status, the ticker and the world
unchanged, calls nothing and does not make `Start` return; the messages
`msg :: more` arriving one after another are all queued behind the earlier
ones in arrival order, and successive `Shift`s then return the queue contents
in that same order. -/
theorem Start_message_queued {ω β ε : Type} (M : Nat) (co : Collab ω β ε)
    (s : LoopState ω) (msg : Message) (more : List Message)
    (hroom : (s.ifc.Buffer.Size : Int) + 1 + more.length ≤ s.ifc.Buffer.capacity) :
    Start.step M co s (Event.message msg) =
      { state := { s with ifc := { s.ifc with Buffer :=
          { s.ifc.Buffer with container := s.ifc.Buffer.container ++ [Item.message msg] } } }
        returned := none, sendErr := none, calls := [] } ∧
    (Start.step M co s (Event.message msg)).state.ifc.Status = s.ifc.Status ∧
    (Start.loop M co s ((msg :: more).map Event.message)).length = more.length + 1 ∧
    (∀ x ∈ Start.loop M co s ((msg :: more).map Event.message),
      x.result.returned = none ∧ x.result.sendErr = none ∧ x.result.calls = []) ∧
    (Start.final s (Start.loop M co s ((msg :: more).map Event.message))).ifc.Buffer.container
      = s.ifc.Buffer.container ++ (msg :: more).map Item.message ∧
    (Start.final s (Start.loop M co s ((msg :: more).map Event.message))).ifc.Status
      = s.ifc.Status ∧
    (Start.final s (Start.loop M co s ((msg :: more).map Event.message))).ifc.Buffer.shifts
        (s.ifc.Buffer.Size + 1 + more.length)
      = s.ifc.Buffer.container ++ (msg :: more).map Item.message := by
  have hlt : (s.ifc.Buffer.Size : Int) < s.ifc.Buffer.capacity := by omega
  have hstep := Start.step_message_below M co s msg hlt
  have hall := Start.loop_messages M co (msg :: more) s
    (by simp only [List.length_cons, Nat.cast_add, Nat.cast_one]; omega)
  refine ⟨hstep, by rw [hstep], by simpa using hall.1, hall.2.1, ?_, ?_, ?_⟩
  · rw [hall.2.2]
  · rw [hall.2.2]
  · rw [hall.2.2]
    have hlen : s.ifc.Buffer.Size + 1 + more.length
        = (s.ifc.Buffer.container ++ (msg :: more).map Item.message).length := by
      simp only [Deque.Size, List.length_append, List.length_map, List.length_cons]
      omega
    rw [hlen]
    exact Deque.shifts_all _ _

theorem Start_message_queued_witness :
    (((demoState Status.Stopped [Item.message (demoMsg 1)] 4).ifc.Buffer.Size : Int) + 1
        + [demoMsg 3].length ≤ (demoState Status.Stopped [Item.message (demoMsg 1)] 4).ifc.Buffer.capacity) ∧
    (Start.step 2 (demoCollab none) (demoState Status.Stopped [Item.message (demoMsg 1)] 4)
      (Event.message (demoMsg 2))).state.ifc.Buffer.container
      = [Item.message (demoMsg 1), Item.message (demoMsg 2)] ∧
    (Start.final (demoState Status.Stopped [Item.message (demoMsg 1)] 4)
      (Start.loop 2 (demoCollab none) (demoState Status.Stopped [Item.message (demoMsg 1)] 4)
        [Event.message (demoMsg 2), Event.message (demoMsg 3)])).ifc.Buffer.shifts 3
      = [Item.message (demoMsg 1), Item.message (demoMsg 2), Item.message (demoMsg 3)] :=
  have h := Start_message_queued 2 (demoCollab none)
    (demoState Status.Stopped [Item.message (demoMsg 1)] 4) (demoMsg 2) [demoMsg 3]
    (by decide)
  ⟨by decide, congrArg (fun r => r.state.ifc.Buffer.container) h.1, h.2.2.2.2.2.2⟩

theorem Start.step_bounded {ω β ε : Type} (M : Nat) (co : Collab ω β ε) (s : LoopState ω)
    (ev : Event) (c : Int) (h0 : 0 ≤ c) (hc : s.ifc.Buffer.capacity = c)
    (hs : (s.ifc.Buffer.Size : Int) ≤ c) :
    (Start.step M co s ev).state.ifc.Buffer.capacity = c ∧
      ((Start.step M co s ev).state.ifc.Buffer.Size : Int) ≤ c := by
  cases ev with
  | tick =>
    cases hst : s.ifc.Status with
    | Stopped => simpa [Start.step, hst] using ⟨hc, hs⟩
    | Started =>
      simp only [Start.step, hst]
      simp only [reduceCtorEq, if_false]
      refine ⟨by rw [Send_capacity, hc], ?_⟩
      have := Send_size_le M co s.world s.ifc.Buffer
      omega
  | message msg =>
    simp only [Start.step]
    refine ⟨by rw [Deque.Append_capacity, hc], ?_⟩
    have := Deque.Append_bounded s.ifc.Buffer (Item.message msg) (by omega) (by omega)
    omega
  | command msg =>
    by_cases hm : msg = "stop"
    · simpa [Start.step, hm] using ⟨hc, hs⟩
    · simpa [Start.step, hm] using ⟨hc, hs⟩

theorem Start.loop_bounded {ω β ε : Type} (M : Nat) (co : Collab ω β ε)
    (evs : List Event) (s : LoopState ω) (c : Int) (h0 : 0 ≤ c)
    (hc : s.ifc.Buffer.capacity = c) (hs : (s.ifc.Buffer.Size : Int) ≤ c) :
    (∀ h ∈ Start.loop M co s evs,
      (h.before.ifc.Buffer.capacity = c ∧ (h.before.ifc.Buffer.Size : Int) ≤ c) ∧
      (h.result.state.ifc.Buffer.capacity = c ∧ (h.result.state.ifc.Buffer.Size : Int) ≤ c)) ∧
    ((Start.final s (Start.loop M co s evs)).ifc.Buffer.capacity = c ∧
      ((Start.final s (Start.loop M co s evs)).ifc.Buffer.Size : Int) ≤ c) := by
  induction evs generalizing s with
  | nil => simpa [Start.loop, Start.final] using ⟨hc, hs⟩
  | cons ev rest ih =>
    have hb := Start.step_bounded M co s ev c h0 hc hs
    cases hr : (Start.step M co s ev).returned with
    | some err =>
      simp only [Start.loop, hr, Start.final, List.mem_singleton, forall_eq]
      exact ⟨⟨⟨hc, hs⟩, hb⟩, hb⟩
    | none =>
      have ih1 := ih (Start.step M co s ev).state hb.1 hb.2
      simp only [Start.loop, hr, Start.final, List.mem_cons, forall_eq_or_imp]
      exact ⟨⟨⟨⟨hc, hs⟩, hb⟩, ih1.1⟩, ih1.2⟩

/-- C5: the client returned by `NewInfluxDBClient` has an empty queue of
capacity `2 * MaxBufferSize`, and over every finite sequence of events handled
by `Start` on it the capacity stays `2 * MaxBufferSize` and the queue size is
at most `2 * MaxBufferSize`, before and after every event and at the end. -/
theorem Start_capacity_invariant {ω β ε ε' : Type} (M : Nat) (connect : String → Option ε')
    (conf : InfluxDBConf) (ifc : InfluxDBClient) (co : Collab ω β ε) (w : ω)
    (events : List Event) (hnew : NewInfluxDBClient M connect conf = Except.ok ifc) :
    ifc.Buffer.capacity = ((2 * M : Nat) : Int) ∧ ifc.Buffer.Size = 0 ∧
    (∀ h ∈ (Start M co ifc w events : List (Handled ω β ε)),
      h.before.ifc.Buffer.capacity = ((2 * M : Nat) : Int) ∧
      h.before.ifc.Buffer.Size ≤ 2 * M ∧
      h.result.state.ifc.Buffer.capacity = ((2 * M : Nat) : Int) ∧
      h.result.state.ifc.Buffer.Size ≤ 2 * M) ∧
    (Start.final (Start.enter ifc w)
      (Start M co ifc w events : List (Handled ω β ε))).ifc.Buffer.Size ≤ 2 * M := by
  have hifc : ifc.Buffer = NewCappedDeque ((M : Int) * 2) := by
    unfold NewInfluxDBClient at hnew
    cases hcon : connect (NewInfluxDBClient.host conf) with
    | some err => simp [hcon] at hnew
    | none =>
      simp only [hcon, Except.ok.injEq] at hnew
      rw [← hnew]
  have hcap : ifc.Buffer.capacity = ((2 * M : Nat) : Int) := by
    rw [hifc]
    simp only [NewCappedDeque]
    push_cast
    omega
  have hsz : ifc.Buffer.Size = 0 := by rw [hifc]; rfl
  have hb := Start.loop_bounded M co events (Start.enter ifc w) ((2 * M : Nat) : Int)
    (Int.natCast_nonneg _) hcap (by simp only [Start.enter, hsz]; omega)
  refine ⟨hcap, hsz, ?_, ?_⟩
  · intro h hh
    have := (hb.1 h hh)
    refine ⟨this.1.1, ?_, this.2.1, ?_⟩
    · exact Int.ofNat_le.1 this.1.2
    · exact Int.ofNat_le.1 this.2.2
  · exact Int.ofNat_le.1 hb.2.2

theorem Start_capacity_invariant_witness :
    NewInfluxDBClient 1 (fun _ => (none : Option String)) demoConf
      = Except.ok (demoState Status.Stopped [] 2).ifc ∧
    (demoState Status.Stopped [] 2).ifc.Buffer.capacity = ((2 * 1 : Nat) : Int) ∧
    (Start.final (Start.enter (demoState Status.Stopped [] 2).ifc 0)
      (Start 1 (demoCollab none) (demoState Status.Stopped [] 2).ifc 0
        [Event.message (demoMsg 1), Event.message (demoMsg 2), Event.message (demoMsg 3),
          Event.tick, Event.message (demoMsg 4)])).ifc.Buffer.Size ≤ 2 * 1 :=
  have h := Start_capacity_invariant 1 (fun _ => (none : Option String)) demoConf
    (demoState Status.Stopped [] 2).ifc (demoCollab none) 0
    [Event.message (demoMsg 1), Event.message (demoMsg 2), Event.message (demoMsg 3),
      Event.tick, Event.message (demoMsg 4)] rfl
  ⟨rfl, h.1, h.2.2.2⟩

/-- C2, as the code has it: when the queue of a client, of capacity
`2 * MaxBufferSize`, is full, `Buffer.Append` inserts nothing and returns
`false`; handling the inbound message leaves the whole loop state as it was
(the new message is the one dropped, the oldest message stays at the head),
calls nothing and does not make `Start` return. -/
theorem Start_message_at_capacity {ω β ε : Type} (M : Nat) (co : Collab ω β ε)
    (s : LoopState ω) (msg : Message)
    (hcap : s.ifc.Buffer.capacity = ((2 * M : Nat) : Int))
    (hfull : s.ifc.Buffer.Size = 2 * M) :
    s.ifc.Buffer.Append (Item.message msg) = (s.ifc.Buffer, false) ∧
    Start.step M co s (Event.message msg) =
      { state := s, returned := none, sendErr := none, calls := [] } ∧
    (Start.step M co s (Event.message msg)).state.ifc.Buffer.container
      = s.ifc.Buffer.container := by
  have happ : s.ifc.Buffer.Append (Item.message msg) = (s.ifc.Buffer, false) := by
    apply Deque.Append_full
    · rw [hcap]; exact Int.natCast_nonneg _
    · rw [hcap]
      simp only [Deque.Size] at hfull
      rw [hfull]
  have hstep : Start.step M co s (Event.message msg) =
      { state := s, returned := none, sendErr := none, calls := [] } := by
    simp only [Start.step]
    rw [happ]
  exact ⟨happ, hstep, by rw [hstep]⟩

theorem Start_message_at_capacity_witness :
    ((demoState Status.Started [Item.message (demoMsg 1), Item.message (demoMsg 2)] 2).ifc.Buffer.capacity
        = ((2 * 1 : Nat) : Int) ∧
      (demoState Status.Started [Item.message (demoMsg 1), Item.message (demoMsg 2)] 2).ifc.Buffer.Size
        = 2 * 1) ∧
    (Start.step 1 (demoCollab none)
      (demoState Status.Started [Item.message (demoMsg 1), Item.message (demoMsg 2)] 2)
      (Event.message (demoMsg 3))).state.ifc.Buffer.container
      = [Item.message (demoMsg 1), Item.message (demoMsg 2)] :=
  ⟨⟨rfl, rfl⟩,
    (Start_message_at_capacity 1 (demoCollab none)
      (demoState Status.Started [Item.message (demoMsg 1), Item.message (demoMsg 2)] 2)
      (demoMsg 3) rfl rfl).2.2⟩

/-- C2 fails as stated: the client built by `NewInfluxDBClient` with
`MaxBufferSize = 1` has a queue of capacity 2; after `Start` has handled two
inbound messages the queue is full, and handling a third one leaves the queue
holding the first two messages: the oldest message is not discarded and the new
message is not placed at the tail. -/
theorem Start_message_eviction_counterexample :
    NewInfluxDBClient 1 (fun _ => (none : Option String)) demoConf
      = Except.ok (demoState Status.Stopped [] 2).ifc ∧
    Start.final (Start.enter (demoState Status.Stopped [] 2).ifc 0)
      (Start 1 (demoCollab none) (demoState Status.Stopped [] 2).ifc 0
        [Event.message (demoMsg 1), Event.message (demoMsg 2)])
      = demoState Status.Started [Item.message (demoMsg 1), Item.message (demoMsg 2)] 2 ∧
    (demoState Status.Started [Item.message (demoMsg 1), Item.message (demoMsg 2)] 2).ifc.Buffer.Size
      = 2 ∧
    (Start.step 1 (demoCollab none)
      (demoState Status.Started [Item.message (demoMsg 1), Item.message (demoMsg 2)] 2)
      (Event.message (demoMsg 3))).state.ifc.Buffer.container
      = [Item.message (demoMsg 1), Item.message (demoMsg 2)] ∧
    (Start.step 1 (demoCollab none)
      (demoState Status.Started [Item.message (demoMsg 1), Item.message (demoMsg 2)] 2)
      (Event.message (demoMsg 3))).state.ifc.Buffer.container
      ≠ (demoState Status.Started [Item.message (demoMsg 1), Item.message (demoMsg 2)]
          2).ifc.Buffer.container.tail ++ [Item.message (demoMsg 3)] :=
  ⟨rfl, rfl, rfl, rfl, by decide⟩

/-! ## NewInfluxDBClient -/

/-- C10, the code at the failing input: with `Url` and `Scheme` both empty,
`Hostname` "h" and `Port` 8086, the address built by `NewInfluxDBClient` is
"://h:8086", not "http://h:8086": the format call is given `conf.Scheme`, not
the local `scheme` that was defaulted to "http". When `Url` is not empty the
address is `Url`, and a non-empty `Scheme` is used as it is. -/
theorem NewInfluxDBClient_host_empty_scheme :
    NewInfluxDBClient.host demoConf = "://h:8086" ∧
    NewInfluxDBClient.host demoConf ≠ "http://h:8086" ∧
    NewInfluxDBClient.host { demoConf with Scheme := "https" } = "https://h:8086" ∧
    NewInfluxDBClient.host { demoConf with Url := "http://db:1" } = "http://db:1" := by
  refine ⟨?_, ?_, ?_, ?_⟩ <;> decide

end MqForward
